import Mathlib

/-!
Formal model of the Visuomind data-analysis and chart-recommendation engine.

The definitions below are a shallow embedding of the JavaScript source:

* `validateChart` / `suggestSmartConfig`-side rules (ChartValidator),
* `calculateStats`, `calculateCorrelation`, `aggregateData`, `sampleData`
  (DataProcessor),
* `getRecommendations` (RecommendationEngine).

Modelling conventions:

* JavaScript numbers are modelled as exact rationals `ℚ` (idealized
  arithmetic; floating-point rounding is out of scope).  The one place the
  source takes a square root (`Math.sqrt`) is modelled with `Real.sqrt`,
  so the correlation function returns a real number.
* `NaN` (which arises from `Number(v)` on a non-numeric string) is
  modelled as `none : Option ℚ`; JS comparisons against `NaN` and against
  `undefined` are `false`, which the `Option`-valued comparison helpers
  reproduce.
* JS objects used as string-keyed dictionaries are modelled as
  association lists in insertion order.  (JS additionally enumerates
  integer-like keys first; no claim below depends on enumeration order
  of integer-like keys.)
* `Array.prototype.sort` with a comparator is modelled as a stable
  insertion sort driven by the strict "must precede" test the comparator
  induces; for a consistent comparator this is exactly the (stable) sort
  JS performs, and comparisons involving `NaN` are `false` on both sides,
  matching the engine behaviour of never moving such elements.
-/

namespace Visuomind

/-- A raw cell value of a dataset row: a number, a string, a date
(carried as its millisecond timestamp), or `null`. -/
inductive Value where
  | num (q : ℚ)
  | str (s : String)
  | date (t : ℚ)
  | null
deriving DecidableEq, Repr

/-- Model of the JS string coercion `String(v)` used when a value becomes
an object key.  The exact digit rendering of numbers and dates is
abstracted by `toString` on `ℚ`; no claim depends on the precise text,
only on the fact that distinct keys are strings. -/
def valueKey : Value → String
  | .num q => toString q
  | .str s => s
  | .date t => "Date(" ++ toString t ++ ")"
  | .null => "null"

/-- Digit-string parser used by the model of JS `Number(string)`. -/
def parseDigitsAux : List Char → Nat → Option Nat
  | [], acc => some acc
  | c :: cs, acc =>
    if c.isDigit then parseDigitsAux cs (acc * 10 + (c.toNat - 48)) else none

/-- Simplified model of JS `Number(string)`: the empty string is `0`,
optionally-negated integer literals parse, any other string is `NaN`
(`none`).  No claim depends on which non-integer strings parse; only on
the fact that some strings yield `NaN`. -/
def jsParseNum (s : String) : Option ℚ :=
  match s.data with
  | [] => some 0
  | c :: cs =>
    if c = '-' then
      match cs with
      | [] => none
      | _ => (parseDigitsAux cs 0).map (fun n => -(n : ℚ))
    else (parseDigitsAux (c :: cs) 0).map (fun n => (n : ℚ))

/-- Model of the JS `Number(v)` coercion; `none` stands for `NaN`. -/
def Value.toNum : Value → Option ℚ
  | .num q => some q
  | .date t => some t
  | .null => some 0
  | .str s => jsParseNum s

/-- A dataset row: a flat mapping from column name to value, in key
order. -/
def Row : Type := List (String × Value)

instance : DecidableEq Row := by unfold Row; infer_instance

instance : Inhabited Row := ⟨([] : List (String × Value))⟩

/-- Property lookup `row[key]`; `none` stands for JS `undefined`. -/
def rowGet (r : Row) (k : String) : Option Value :=
  (List.find? (fun p => p.1 == k) r).map (fun p => p.2)

/-- Per-column statistics object.  The JS object carries only the fields
of the branch that produced it; absent fields are `none` (JS
`undefined`).  `stdDev` is not stored: the source always computes it as
`Math.sqrt(variance)`, which `Stats.stdDev` below derives. -/
structure Stats where
  nullCount : Nat := 0
  min : Option ℚ := none
  max : Option ℚ := none
  mean : Option ℚ := none
  median : Option ℚ := none
  sum : Option ℚ := none
  variance : Option ℚ := none
  uniqueCount : Option Nat := none
  top : Option (List (String × Nat)) := none
deriving DecidableEq, Repr

/-- The derived `stdDev` field: the source stores
`stdDev = Math.sqrt(variance)` next to `variance`, so it is a function of
the stored variance. -/
noncomputable def Stats.stdDev (s : Stats) : Option ℝ :=
  s.variance.map (fun v => Real.sqrt (v : ℝ))

/-- Column metadata (key, inferred type, display label) together with its
statistics.  Types are the source's strings: `"number"`, `"date"`,
`"category"`, `"text"`. -/
structure Column where
  key : String
  type : String
  label : String
  stats : Stats
deriving DecidableEq, Repr

/-- Result of `validateChart`; absent JS fields are `none`. -/
structure ValidationResult where
  valid : Bool
  severity : Option String := none
  reason : Option String := none
  suggestedType : Option String := none
deriving DecidableEq, Repr

/-- The interpolated "Too many slices" message of the pie rule. -/
def tooManySlicesMsg (n : Nat) : String :=
  "Too many slices (" ++ toString n ++ " > 6)."

/-- The interpolated "High cardinality" message of the bar rule. -/
def highCardinalityMsg (n : Nat) : String :=
  "High cardinality (" ++ toString n ++ "). Will show Top 20 items."

/-- Shallow embedding of `validateChart(type, xCol, yCol)` from
ChartValidator.  The JS cascade of `if (...) return ...` blocks becomes
a nested conditional; `xCol.stats.uniqueCount || 0` becomes `getD 0`;
`yCol.stats.min < 0` is `false` when `min` is absent (`undefined < 0`). -/
def validateChart (ctype : String) (xo yo : Option Column) : ValidationResult :=
  match xo, yo with
  | some xCol, some yCol =>
    let uniqueX : Nat := xCol.stats.uniqueCount.getD 0
    let isXNumeric : Bool := xCol.type == "number"
    let isYNumeric : Bool := yCol.type == "number"
    let hasNegatives : Bool :=
      match yCol.stats.min with
      | some m => decide (m < 0)
      | none => false
    if isXNumeric && isYNumeric then
      if ctype != "scatter" then
        { valid := false, severity := some "AUTO_FIX",
          reason := some "Both axes are numeric. Switching to Scatter Plot.",
          suggestedType := some "scatter" }
      else
        { valid := true }
    else if ctype == "scatter" && (!isXNumeric || !isYNumeric) then
      { valid := false, severity := some "BLOCK",
        reason := some "Scatter plots require both axes to be numeric." }
    else if ctype == "pie" || ctype == "doughnut" then
      if isXNumeric then
        { valid := false, severity := some "BLOCK",
          reason := some "Pie charts require a categorical X-axis." }
      else if hasNegatives then
        { valid := false, severity := some "BLOCK",
          reason := some "Pie charts cannot display negative values." }
      else if 6 < uniqueX then
        { valid := false, severity := some "BLOCK",
          reason := some (tooManySlicesMsg uniqueX) }
      else
        { valid := true }
    else if ctype == "bar" then
      if isXNumeric && decide (20 < uniqueX) then
        { valid := false, severity := some "AUTO_FIX",
          reason := some "Continuous numeric X-axis. Switching to Scatter.",
          suggestedType := some "scatter" }
      else if 20 < uniqueX then
        { valid := true, severity := some "WARN",
          reason := some (highCardinalityMsg uniqueX) }
      else
        { valid := true }
    else if ctype == "line" then
      if xCol.type != "date" && !isXNumeric then
        { valid := false, severity := some "BLOCK",
          reason := some "Line charts require Date or Numeric X-axis for trends." }
      else
        { valid := true }
    else
      { valid := true }
  | _, _ =>
    { valid := false, severity := some "BLOCK", reason := some "Select axes first" }

/-- Stable insertion step for the model of `Array.prototype.sort`:
`prec y x = true` means the already-placed element `y` must precede the
element `x` being inserted (the comparator strictly orders `y` before
`x`); on a tie or an incomparable (`NaN`) pair the earlier element `x`
is placed first, which is exactly stable-sort behaviour. -/
def insertBy (prec : α → α → Bool) (x : α) : List α → List α
  | [] => [x]
  | y :: ys => if prec y x then y :: insertBy prec x ys else x :: y :: ys

/-- Stable sort by the strict "must precede" test `prec` (model of JS
`Array.prototype.sort` with a comparator). -/
def sortByPrec (prec : α → α → Bool) : List α → List α
  | [] => []
  | x :: xs => insertBy prec x (sortByPrec prec xs)

theorem insertBy_perm (prec : α → α → Bool) (x : α) (l : List α) :
    List.Perm (insertBy prec x l) (x :: l) := by
  induction l with
  | nil => simp [insertBy]
  | cons y ys ih =>
    by_cases h : prec y x
    · simp only [insertBy, h, if_true]
      exact (ih.cons y).trans (List.Perm.swap x y ys)
    · simp [insertBy, h]

theorem sortByPrec_perm (prec : α → α → Bool) (l : List α) :
    List.Perm (sortByPrec prec l) l := by
  induction l with
  | nil => simp [sortByPrec]
  | cons x xs ih =>
    exact (insertBy_perm prec x (sortByPrec prec xs)).trans (ih.cons x)

theorem mem_insertBy {prec : α → α → Bool} {x z : α} {l : List α}
    (h : z ∈ insertBy prec x l) : z = x ∨ z ∈ l :=
  List.mem_cons.mp ((insertBy_perm prec x l).mem_iff.mp h)

/-- If no element must precede any other (all comparator tests false),
the stable sort is the identity. -/
theorem sortByPrec_of_forall_false {prec : α → α → Bool} :
    ∀ {l : List α}, (∀ a ∈ l, ∀ b ∈ l, prec a b = false) →
      sortByPrec prec l = l := by
  intro l
  induction l with
  | nil => intro _; rfl
  | cons x xs ih =>
    intro h
    have hxs : sortByPrec prec xs = xs :=
      ih (fun a ha b hb => h a (List.mem_cons_of_mem x ha) b (List.mem_cons_of_mem x hb))
    have : insertBy prec x xs = x :: xs := by
      cases xs with
      | nil => rfl
      | cons y ys =>
        have hy : prec y x = false :=
          h y (List.mem_cons_of_mem x (List.mem_cons_self y ys)) x (List.mem_cons_self x (y :: ys))
        simp [insertBy, hy]
    simp [sortByPrec, hxs, this]

/-- Sortedness of the insertion sort, relative to a relation `R` that is
total (via `prec`), and transitive, on elements satisfying `P`. -/
theorem pairwise_insertBy {prec : α → α → Bool} {R : α → α → Prop} {P : α → Prop}
    (h1 : ∀ a b, P a → P b → prec a b = true → R a b)
    (h2 : ∀ a b, P a → P b → prec a b = false → R b a)
    (htrans : ∀ a b c, P a → P b → P c → R a b → R b c → R a c) :
    ∀ {x : α} {l : List α}, P x → (∀ z ∈ l, P z) → l.Pairwise R →
      (insertBy prec x l).Pairwise R := by
  intro x l
  induction l with
  | nil => intro _ _ _; simp [insertBy]
  | cons y ys ih =>
    intro hPx hPl hp
    rcases List.pairwise_cons.mp hp with ⟨hy, hys⟩
    have hPy : P y := hPl y (List.mem_cons_self y ys)
    have hPys : ∀ z ∈ ys, P z := fun z hz => hPl z (List.mem_cons_of_mem y hz)
    by_cases h : prec y x
    · simp only [insertBy, h, if_true]
      refine List.pairwise_cons.mpr ⟨?_, ih hPx hPys hys⟩
      intro z hz
      rcases mem_insertBy hz with rfl | hzys
      · exact h1 y z hPy hPx h
      · exact hy z hzys
    · have hfalse : prec y x = false := Bool.eq_false_iff.mpr h
      simp only [insertBy, hfalse, Bool.false_eq_true, if_false]
      refine List.pairwise_cons.mpr ⟨?_, hp⟩
      intro z hz
      rcases List.mem_cons.mp hz with rfl | hzys
      · exact h2 z x hPy hPx hfalse
      · exact htrans x y z hPx hPy (hPys z hzys) (h2 y x hPy hPx hfalse) (hy z hzys)

theorem pairwise_sortByPrec {prec : α → α → Bool} {R : α → α → Prop} {P : α → Prop}
    (h1 : ∀ a b, P a → P b → prec a b = true → R a b)
    (h2 : ∀ a b, P a → P b → prec a b = false → R b a)
    (htrans : ∀ a b c, P a → P b → P c → R a b → R b c → R a c) :
    ∀ (l : List α), (∀ z ∈ l, P z) → (sortByPrec prec l).Pairwise R := by
  intro l
  induction l with
  | nil => intro _; simp [sortByPrec]
  | cons x xs ih =>
    intro hPl
    refine pairwise_insertBy h1 h2 htrans (hPl x (List.mem_cons_self x xs)) ?_
      (ih (fun z hz => hPl z (List.mem_cons_of_mem x hz)))
    intro z hz
    exact hPl z (List.mem_cons_of_mem x
      ((sortByPrec_perm prec xs).mem_iff.mp hz))

/-- `Math.min(...l)` over a nonempty list, as a fold. -/
def listMin (h : ℚ) (t : List ℚ) : ℚ := t.foldl min h

/-- `Math.max(...l)` over a nonempty list, as a fold. -/
def listMax (h : ℚ) (t : List ℚ) : ℚ := t.foldl max h

theorem foldl_min_le_start : ∀ (t : List ℚ) (a : ℚ), t.foldl min a ≤ a := by
  intro t
  induction t with
  | nil => intro a; simp
  | cons x xs ih =>
    intro a
    calc (x :: xs).foldl min a = xs.foldl min (min a x) := rfl
    _ ≤ min a x := ih (min a x)
    _ ≤ a := min_le_left a x

theorem foldl_min_le_mem : ∀ (t : List ℚ) (a x : ℚ), x ∈ t → t.foldl min a ≤ x := by
  intro t
  induction t with
  | nil => intro a x hx; cases hx
  | cons y ys ih =>
    intro a x hx
    rcases List.mem_cons.mp hx with rfl | hx'
    · exact le_trans (foldl_min_le_start ys (min a x)) (min_le_right a x)
    · exact ih (min a y) x hx'

theorem listMin_le {h : ℚ} {t : List ℚ} : ∀ x ∈ h :: t, listMin h t ≤ x := by
  intro x hx
  rcases List.mem_cons.mp hx with rfl | hx'
  · exact foldl_min_le_start t x
  · exact foldl_min_le_mem t h x hx'

theorem foldl_max_start_le : ∀ (t : List ℚ) (a : ℚ), a ≤ t.foldl max a := by
  intro t
  induction t with
  | nil => intro a; simp
  | cons x xs ih =>
    intro a
    calc a ≤ max a x := le_max_left a x
    _ ≤ xs.foldl max (max a x) := ih (max a x)
    _ = (x :: xs).foldl max a := rfl

theorem mem_le_foldl_max : ∀ (t : List ℚ) (a x : ℚ), x ∈ t → x ≤ t.foldl max a := by
  intro t
  induction t with
  | nil => intro a x hx; cases hx
  | cons y ys ih =>
    intro a x hx
    rcases List.mem_cons.mp hx with rfl | hx'
    · exact le_trans (le_max_right a x) (foldl_max_start_le ys (max a x))
    · exact ih (max a y) x hx'

theorem le_listMax {h : ℚ} {t : List ℚ} : ∀ x ∈ h :: t, x ≤ listMax h t := by
  intro x hx
  rcases List.mem_cons.mp hx with rfl | hx'
  · exact foldl_max_start_le t x
  · exact mem_le_foldl_max t h x hx'

/-- Numeric payload of a value.  The number branch of `calculateStats`
is only ever reached with values cleaned by `parseValue` (numbers or
nulls); a non-numeric value there would NaN-poison the JS statistics and
is ignored by the model (unreachable in the pipeline). -/
def Value.asNum : Value → Option ℚ
  | .num q => some q
  | _ => none

/-- Date payload (`d.getTime()`); non-dates are unreachable in the date
branch of `calculateStats` and are ignored by the model. -/
def Value.asDate : Value → Option ℚ
  | .date t => some t
  | _ => none

/-- `counts[v] = (counts[v] || 0) + 1` over a string-keyed object kept
as an association list in insertion order. -/
def bumpCount (counts : List (String × Nat)) (k : String) : List (String × Nat) :=
  match counts with
  | [] => [(k, 1)]
  | (k', n) :: rest =>
    if k' == k then (k', n + 1) :: rest else (k', n) :: bumpCount rest k

/-- The median computation of the number branch: ascending stable sort
(`sort((a, b) => a - b)`), middle element, or average of the two middle
elements for even length. -/
def medianOf (nums : List ℚ) : ℚ :=
  let sorted := sortByPrec (fun a b => decide (a < b)) nums
  let mid := sorted.length / 2
  if sorted.length % 2 ≠ 0 then sorted.getD mid 0
  else (sorted.getD (mid - 1) 0 + sorted.getD mid 0) / 2

/-- The population variance of the number branch
(`reduce((acc, val) => acc + (val - mean)^2, 0) / n`). -/
def varianceOf (nums : List ℚ) : ℚ :=
  let mean := nums.sum / (nums.length : ℚ)
  (nums.map (fun v => (v - mean) * (v - mean))).sum / (nums.length : ℚ)

/-- The number branch of `calculateStats` over the (nonempty) numeric
values `h :: t`: population mean/variance, median over the ascending
sorted copy, min/max via folds. -/
def numberStats (h : ℚ) (t : List ℚ) (nullCount : Nat) : Stats :=
  { min := some (listMin h t), max := some (listMax h t),
    mean := some ((h :: t).sum / ((h :: t).length : ℚ)),
    median := some (medianOf (h :: t)), sum := some (h :: t).sum,
    variance := some (varianceOf (h :: t)), nullCount := nullCount }

/-- The category/text branch of `calculateStats`: per-key frequencies in
insertion order, sorted by count descending (stable), `top` truncated to
10 entries. -/
def categoryStats (validValues : List Value) (nullCount : Nat) : Stats :=
  let counts := validValues.foldl (fun acc v => bumpCount acc (valueKey v)) []
  let sorted := sortByPrec (fun a b => decide (b.2 < a.2)) counts
  { uniqueCount := some sorted.length, top := some (sorted.take 10),
    nullCount := nullCount }

/-- The date branch of `calculateStats`: min/max over timestamps. -/
def dateStats (h : ℚ) (t : List ℚ) (nullCount : Nat) : Stats :=
  { min := some (listMin h t), max := some (listMax h t),
    nullCount := nullCount }

/-- Shallow embedding of `calculateStats(values, type)` from
DataProcessor.  Fields the JS branch does not set are `none`. -/
def calculateStats (values : List Value) (type : String) : Stats :=
  let validValues := values.filter (fun v => v != Value.null)
  let nullCount := values.length - validValues.length
  if validValues.length = 0 then { nullCount := nullCount }
  else if type == "number" then
    match validValues.filterMap Value.asNum with
    | [] => { nullCount := nullCount }
    | h :: t => numberStats h t nullCount
  else if type == "category" || type == "text" then
    categoryStats validValues nullCount
  else if type == "date" then
    match validValues.filterMap Value.asDate with
    | [] => { nullCount := nullCount }
    | h :: t => dateStats h t nullCount
  else { nullCount := nullCount }

theorem getD_mem_of_lt {l : List ℚ} {i : Nat} (h : i < l.length) (d : ℚ) :
    l.getD i d ∈ l := by
  induction l generalizing i with
  | nil => cases h
  | cons x xs ih =>
    cases i with
    | zero => exact List.mem_cons_self x xs
    | succ j =>
      exact List.mem_cons_of_mem x (ih (Nat.lt_of_succ_lt_succ h))

theorem calculateStats_number_eq {values : List Value} {h : ℚ} {t : List ℚ}
    (hnums : (values.filter (fun v => v != Value.null)).filterMap Value.asNum = h :: t) :
    calculateStats values "number" =
      numberStats h t (values.length - (values.filter (fun v => v != Value.null)).length) := by
  have hlen : ¬ (values.filter (fun v => v != Value.null)).length = 0 := by
    intro h0
    rw [List.length_eq_zero] at h0
    rw [h0] at hnums
    simp at hnums
  simp only [calculateStats]
  rw [hnums]
  simp [hlen]

theorem varianceOf_nonneg (nums : List ℚ) : 0 ≤ varianceOf nums := by
  apply div_nonneg
  · apply List.sum_nonneg
    intro x hx
    rcases List.mem_map.mp hx with ⟨v, _, rfl⟩
    exact mul_self_nonneg _
  · positivity

theorem medianOf_between (h : ℚ) (t : List ℚ) :
    listMin h t ≤ medianOf (h :: t) ∧ medianOf (h :: t) ≤ listMax h t := by
  have hperm := sortByPrec_perm (fun a b => decide (a < b)) (h :: t)
  have hpos : 0 < (sortByPrec (fun a b => decide (a < b)) (h :: t)).length := by
    rw [hperm.length_eq]; simp
  have hmid :
      (sortByPrec (fun a b => decide (a < b)) (h :: t)).length / 2 <
        (sortByPrec (fun a b => decide (a < b)) (h :: t)).length :=
    Nat.div_lt_self hpos (by omega)
  have hmid1 :
      (sortByPrec (fun a b => decide (a < b)) (h :: t)).length / 2 - 1 <
        (sortByPrec (fun a b => decide (a < b)) (h :: t)).length :=
    Nat.lt_of_le_of_lt (Nat.sub_le _ _) hmid
  have hm2 : (sortByPrec (fun a b => decide (a < b)) (h :: t)).getD
      ((sortByPrec (fun a b => decide (a < b)) (h :: t)).length / 2) 0 ∈ (h :: t) :=
    hperm.mem_iff.mp (getD_mem_of_lt hmid 0)
  have hm1 : (sortByPrec (fun a b => decide (a < b)) (h :: t)).getD
      ((sortByPrec (fun a b => decide (a < b)) (h :: t)).length / 2 - 1) 0 ∈ (h :: t) :=
    hperm.mem_iff.mp (getD_mem_of_lt hmid1 0)
  simp only [medianOf]
  by_cases hodd : (sortByPrec (fun a b => decide (a < b)) (h :: t)).length % 2 ≠ 0
  · rw [if_pos hodd]
    exact ⟨listMin_le _ hm2, le_listMax _ hm2⟩
  · rw [if_neg hodd]
    have ha := listMin_le _ hm1
    have hb := listMin_le _ hm2
    have hc := le_listMax _ hm1
    have hd := le_listMax _ hm2
    constructor <;> linarith

theorem numberStats_invariants (h : ℚ) (t : List ℚ) (nc : Nat) :
    ∃ mn md mx vr,
      (numberStats h t nc).min = some mn ∧ (numberStats h t nc).median = some md ∧
      (numberStats h t nc).max = some mx ∧ (numberStats h t nc).variance = some vr ∧
      mn ≤ md ∧ md ≤ mx ∧ 0 ≤ vr :=
  ⟨listMin h t, medianOf (h :: t), listMax h t, varianceOf (h :: t),
    rfl, rfl, rfl, rfl, (medianOf_between h t).1, (medianOf_between h t).2,
    varianceOf_nonneg (h :: t)⟩

/-- Claim C7: for every numeric column with at least one valid
(non-null) value, the statistics produced by `calculateStats` satisfy
`min ≤ median ≤ max` and `variance ≥ 0`. -/
theorem claim_C7_stats_invariants (values : List Value)
    (hval : ∃ q, Value.num q ∈ values) :
    ∃ mn md mx vr,
      (calculateStats values "number").min = some mn ∧
      (calculateStats values "number").median = some md ∧
      (calculateStats values "number").max = some mx ∧
      (calculateStats values "number").variance = some vr ∧
      mn ≤ md ∧ md ≤ mx ∧ 0 ≤ vr := by
  obtain ⟨q, hq⟩ := hval
  have hqvalid : Value.num q ∈ values.filter (fun v => v != Value.null) := by
    refine List.mem_filter.mpr ⟨hq, ?_⟩
    rfl
  have hqnum : q ∈ (values.filter (fun v => v != Value.null)).filterMap Value.asNum :=
    List.mem_filterMap.mpr ⟨Value.num q, hqvalid, rfl⟩
  rcases hcase : (values.filter (fun v => v != Value.null)).filterMap Value.asNum with
    _ | ⟨h, t⟩
  · rw [hcase] at hqnum; cases hqnum
  · rw [calculateStats_number_eq hcase]
    exact numberStats_invariants h t _

/-- Witness for C7 at the concrete column values `[1, null, 3]`. -/
theorem claim_C7_stats_invariants_witness :
    ∃ mn md mx vr,
      (calculateStats [Value.num 1, Value.null, Value.num 3] "number").min = some mn ∧
      (calculateStats [Value.num 1, Value.null, Value.num 3] "number").median = some md ∧
      (calculateStats [Value.num 1, Value.null, Value.num 3] "number").max = some mx ∧
      (calculateStats [Value.num 1, Value.null, Value.num 3] "number").variance = some vr ∧
      mn ≤ md ∧ md ≤ mx ∧ 0 ≤ vr :=
  claim_C7_stats_invariants [Value.num 1, Value.null, Value.num 3] ⟨1, by decide⟩

/-- Claim C1: when both axes are numeric, `validateChart` AUTO_FIXes to
scatter for every non-scatter chart type (this rule precedes all later
rules), and accepts the scatter type. -/
theorem claim_C1_both_numeric (ctype : String) (x y : Column)
    (hx : x.type = "number") (hy : y.type = "number") :
    (ctype ≠ "scatter" →
      validateChart ctype (some x) (some y) =
        { valid := false, severity := some "AUTO_FIX",
          reason := some "Both axes are numeric. Switching to Scatter Plot.",
          suggestedType := some "scatter" }) ∧
    (ctype = "scatter" → validateChart ctype (some x) (some y) = { valid := true }) := by
  constructor
  · intro hne
    simp [validateChart, hx, hy, hne]
  · intro hsc
    subst hsc
    simp [validateChart, hx, hy]

/-- Witness for C1: a bar chart over two numeric columns is auto-fixed
to scatter. -/
theorem claim_C1_both_numeric_witness :
    ("bar" : String) ≠ "scatter" ∧
    validateChart "bar"
        (some { key := "a", type := "number", label := "A", stats := {} })
        (some { key := "b", type := "number", label := "B", stats := {} }) =
      { valid := false, severity := some "AUTO_FIX",
        reason := some "Both axes are numeric. Switching to Scatter Plot.",
        suggestedType := some "scatter" } :=
  ⟨by decide,
    (claim_C1_both_numeric "bar"
      { key := "a", type := "number", label := "A", stats := {} }
      { key := "b", type := "number", label := "B", stats := {} }
      rfl rfl).1 (by decide)⟩

/-- Claim C2: for a pie or doughnut chart with a non-numeric x column
and a y column whose minimum is not negative, the validator BLOCKs with
the "Too many slices" reason exactly when the x column's distinct-value
count exceeds 6 (a missing count stands in as 0), and accepts
otherwise. -/
theorem claim_C2_pie_slices (ctype : String) (x y : Column)
    (hc : ctype = "pie" ∨ ctype = "doughnut") (hx : x.type ≠ "number")
    (hy : ∀ m, y.stats.min = some m → 0 ≤ m) :
    (6 < x.stats.uniqueCount.getD 0 →
      validateChart ctype (some x) (some y) =
        { valid := false, severity := some "BLOCK",
          reason := some (tooManySlicesMsg (x.stats.uniqueCount.getD 0)) }) ∧
    (x.stats.uniqueCount.getD 0 ≤ 6 →
      validateChart ctype (some x) (some y) = { valid := true }) := by
  have hneg : (match y.stats.min with
      | some m => decide (m < 0)
      | none => false) = false := by
    cases hmin : y.stats.min with
    | none => rfl
    | some m => simp [hy m hmin, not_lt]
  rcases hc with hc | hc <;> subst hc <;>
    constructor <;> intro hcount <;>
      simp [validateChart, hx, hneg, hcount, Nat.not_lt.mpr hcount]

/-- Witness for C2 with a 7-category x column (blocked) packaged with an
at-most-6 variant (accepted). -/
theorem claim_C2_pie_slices_witness :
    validateChart "pie"
        (some { key := "c", type := "category", label := "C",
                stats := { uniqueCount := some 7 } })
        (some { key := "s", type := "number", label := "S",
                stats := { min := some 2 } }) =
      { valid := false, severity := some "BLOCK",
        reason := some (tooManySlicesMsg 7) } :=
  (claim_C2_pie_slices "pie"
      { key := "c", type := "category", label := "C",
        stats := { uniqueCount := some 7 } }
      { key := "s", type := "number", label := "S",
        stats := { min := some 2 } }
      (Or.inl rfl) (by decide)
      (fun m hm => by
        simp only [Option.some.injEq] at hm
        rw [hm.symm] at *
        norm_num)).1 (by decide)

theorem calculateStats_number_no_uniqueCount (values : List Value) :
    (calculateStats values "number").uniqueCount = none := by
  simp only [calculateStats]
  by_cases h0 : (values.filter (fun v => v != Value.null)).length = 0
  · rw [if_pos h0]
  · rw [if_neg h0, if_pos (by decide : (("number" : String) == "number") = true)]
    rcases hcase : (values.filter (fun v => v != Value.null)).filterMap Value.asNum with
      _ | ⟨a, s⟩ <;> rfl

theorem calculateStats_date_no_uniqueCount (values : List Value) :
    (calculateStats values "date").uniqueCount = none := by
  simp only [calculateStats]
  by_cases h0 : (values.filter (fun v => v != Value.null)).length = 0
  · rw [if_pos h0]
  · rw [if_neg h0, if_neg (by decide : ¬ (("date" : String) == "number") = true),
      if_neg (by decide :
        ¬ (("date" : String) == "category" || ("date" : String) == "text") = true),
      if_pos (by decide : (("date" : String) == "date") = true)]
    rcases hcase : (values.filter (fun v => v != Value.null)).filterMap Value.asDate with
      _ | ⟨a, s⟩ <;> rfl

/-- Claim C9: `validateChart` substitutes 0 for a missing `uniqueCount`
(number- and date-typed stats carry none), hence a pie/doughnut chart
over a date-typed x column with a non-negative y minimum validates, and
the bar rule's numeric-x AUTO_FIX branch can never fire for such
columns. -/
theorem claim_C9_uniqueCount_default :
    (∀ values : List Value,
      (calculateStats values "number").uniqueCount = none ∧
      (calculateStats values "date").uniqueCount = none) ∧
    (∀ (ctype : String) (x y : Column), (ctype = "pie" ∨ ctype = "doughnut") →
      x.type = "date" → x.stats.uniqueCount = none →
      (∀ m, y.stats.min = some m → 0 ≤ m) →
      validateChart ctype (some x) (some y) = { valid := true }) ∧
    (∀ x y : Column, x.stats.uniqueCount = none →
      validateChart "bar" (some x) (some y) ≠
        { valid := false, severity := some "AUTO_FIX",
          reason := some "Continuous numeric X-axis. Switching to Scatter.",
          suggestedType := some "scatter" }) := by
  refine ⟨fun values =>
    ⟨calculateStats_number_no_uniqueCount values,
     calculateStats_date_no_uniqueCount values⟩, ?_, ?_⟩
  · intro ctype x y hc hx hu hy
    have hneg : (match y.stats.min with
        | some m => decide (m < 0)
        | none => false) = false := by
      cases hmin : y.stats.min with
      | none => rfl
      | some m => simp [hy m hmin, not_lt]
    rcases hc with hc | hc <;> subst hc <;> simp [validateChart, hx, hu, hneg]
  · intro x y hu
    by_cases hx : (x.type == "number") = true <;>
      by_cases hy : (y.type == "number") = true <;>
        simp [validateChart, hx, hy, hu]

/-- Witness for C9: a pie chart whose date x column takes its stats from
`calculateStats` (hence no `uniqueCount`) validates, and the bar branch
cannot AUTO_FIX such a column. -/
theorem claim_C9_uniqueCount_default_witness :
    validateChart "pie"
        (some { key := "d", type := "date", label := "D",
                stats := calculateStats [Value.date 0] "date" })
        (some { key := "s", type := "number", label := "S",
                stats := { min := some 2 } }) = { valid := true } :=
  claim_C9_uniqueCount_default.2.1 "pie"
    { key := "d", type := "date", label := "D",
      stats := calculateStats [Value.date 0] "date" }
    { key := "s", type := "number", label := "S", stats := { min := some 2 } }
    (Or.inl rfl) rfl
    ((claim_C9_uniqueCount_default.1 [Value.date 0]).2)
    (fun m hm => by
      simp only [Option.some.injEq] at hm
      rw [hm.symm] at *
      norm_num)

/-- JS `>` on possibly-NaN numbers: `false` whenever either side is
`NaN`. -/
def optGtB (a b : Option ℚ) : Bool :=
  match a, b with
  | some p, some q => decide (q < p)
  | _, _ => false

/-- JS `<` on possibly-NaN numbers. -/
def optLtB (a b : Option ℚ) : Bool :=
  match a, b with
  | some p, some q => decide (p < q)
  | _, _ => false

/-- NaN-propagating addition (JS `a + b`). -/
def optAdd (a b : Option ℚ) : Option ℚ :=
  match a, b with
  | some p, some q => some (p + q)
  | _, _ => none

/-- `values.reduce((a, b) => a + b, 0)`. -/
def optSum (l : List (Option ℚ)) : Option ℚ := l.foldl optAdd (some 0)

/-- NaN-propagating division by a list length (used for the mean). -/
def optDivNat (a : Option ℚ) (n : Nat) : Option ℚ :=
  match a with
  | some p => if n = 0 then none else some (p / (n : ℚ))
  | none => none

/-- Median over the group's (possibly NaN) values: ascending stable
sort, middle element or NaN-propagating average of the two middles. -/
def optMedian (values : List (Option ℚ)) : Option ℚ :=
  let sorted := sortByPrec (fun a b => optLtB a b) values
  let mid := sorted.length / 2
  if sorted.length % 2 ≠ 0 then sorted.getD mid none
  else (optAdd (sorted.getD (mid - 1) none) (sorted.getD mid none)).map (fun q => q / 2)

/-- The per-group reduction of `aggregateData` (`count`, `sum`, `mean`,
`median`; anything else keeps the initial `value = 0`). -/
def aggValue (method : String) (values : List (Option ℚ)) : Option ℚ :=
  if method == "count" then some ((values.length : ℚ))
  else if method == "sum" then optSum values
  else if method == "mean" then optDivNat (optSum values) values.length
  else if method == "median" then optMedian values
  else some 0

/-- `groups[key].push(Number(val))`, with the group created on first
use; a fresh key is appended (string-keyed object in insertion
order). -/
def insertGroup (groups : List (String × List (Option ℚ))) (k : String)
    (v : Option ℚ) : List (String × List (Option ℚ)) :=
  match groups with
  | [] => [(k, [v])]
  | (k', vs) :: rest =>
    if k' == k then (k', vs ++ [v]) :: rest else (k', vs) :: insertGroup rest k v

/-- One `data.forEach` step of `aggregateData`: skip when the group key
or the metric value is `undefined`/`null`, otherwise push the
`Number(val)` coercion under the `String(key)` object key. -/
def groupStep (g m : String) (groups : List (String × List (Option ℚ)))
    (row : Row) : List (String × List (Option ℚ)) :=
  match rowGet row g, rowGet row m with
  | some k, some v =>
    if k = Value.null ∨ v = Value.null then groups
    else insertGroup groups (valueKey k) (Value.toNum v)
  | _, _ => groups

/-- The `groups` object of `aggregateData` after the `forEach`. -/
def buildGroups (data : List Row) (g m : String) :
    List (String × List (Option ℚ)) :=
  data.foldl (groupStep g m) []

/-- `Object.entries(groups).map(([key, values]) => ({..key.., ..value..}))`:
each output row is modelled as the pair of its group-key string and its
aggregated metric value. -/
def aggEntries (data : List Row) (g m method : String) :
    List (String × Option ℚ) :=
  (buildGroups data g m).map (fun p => (p.1, aggValue method p.2))

/-- Shallow embedding of `aggregateData(data, groupByCol, metricCol,
method, limit)` from DataProcessor: group, reduce, sort by value
descending (comparator `(a, b) => b[metricCol] - a[metricCol]`), then
apply a positive `limit`. -/
def aggregateData (data : List Row) (g m method : String)
    (limit : Option ℤ) : List (String × Option ℚ) :=
  let result := sortByPrec (fun a b => optGtB a.2 b.2) (aggEntries data g m method)
  match limit with
  | some l =>
    if 0 < l ∧ l < (result.length : ℤ) then result.take l.toNat else result
  | none => result

theorem value_str_ne_null (s : String) : (Value.str s = Value.null) = False :=
  eq_false (fun h => Value.noConfusion h)

theorem value_num_ne_null (q : ℚ) : (Value.num q = Value.null) = False :=
  eq_false (fun h => Value.noConfusion h)

/-- The three data rows of the end-to-end example in the spec. -/
def exampleRows : List Row :=
  [[("region", Value.str "A"), ("sales", Value.num 10)],
   [("region", Value.str "B"), ("sales", Value.num 20)],
   [("region", Value.str "A"), ("sales", Value.num 30)]]

/-- Counterexample to claim C3: on the example rows, `aggregateData`
does not return the group-B entry first — descending order by the
summed value puts A (40) before B (20). -/
theorem claim_C3_counterexample :
    aggregateData exampleRows "region" "sales" "sum" none ≠
      [("B", some 20), ("A", some 40)] := by
  norm_num [aggregateData, aggEntries, buildGroups, groupStep, rowGet, insertGroup,
    valueKey, Value.toNum, optSum, optAdd, aggValue, exampleRows, sortByPrec,
    insertBy, optGtB, List.find?,
    show ("sum" : String) ≠ "count" by decide,
    show ("region" : String) ≠ "sales" by decide,
    show ("sales" : String) ≠ "region" by decide,
    show (("region" : String) == "sales") = false by decide,
    show (("sales" : String) == "region") = false by decide,
    show ("A" : String) ≠ "B" by decide, show ("B" : String) ≠ "A" by decide,
    show (("A" : String) == "B") = false by decide,
    show (("B" : String) == "A") = false by decide,
    value_str_ne_null, value_num_ne_null]

/-- Claim C3 as amended: the descending-sorted output is
`[{region:"A", sales:40}, {region:"B", sales:20}]`, the A entry (sum
40) first. -/
theorem claim_C3_amended :
    aggregateData exampleRows "region" "sales" "sum" none =
      [("A", some 40), ("B", some 20)] := by
  norm_num [aggregateData, aggEntries, buildGroups, groupStep, rowGet, insertGroup,
    valueKey, Value.toNum, optSum, optAdd, aggValue, exampleRows, sortByPrec,
    insertBy, optGtB, List.find?,
    show ("sum" : String) ≠ "count" by decide,
    show ("region" : String) ≠ "sales" by decide,
    show ("sales" : String) ≠ "region" by decide,
    show (("region" : String) == "sales") = false by decide,
    show (("sales" : String) == "region") = false by decide,
    show ("A" : String) ≠ "B" by decide, show ("B" : String) ≠ "A" by decide,
    show (("A" : String) == "B") = false by decide,
    show (("B" : String) == "A") = false by decide,
    value_str_ne_null, value_num_ne_null]

theorem insertGroup_keys (groups : List (String × List (Option ℚ)))
    (k : String) (v : Option ℚ) :
    (insertGroup groups k v).map Prod.fst =
      if k ∈ groups.map Prod.fst then groups.map Prod.fst
      else groups.map Prod.fst ++ [k] := by
  induction groups with
  | nil => simp [insertGroup]
  | cons p rest ih =>
    obtain ⟨kh, vs⟩ := p
    by_cases hk : kh = k
    · subst hk
      simp [insertGroup]
    · have hbeq : (kh == k) = false := by simp [hk]
      simp only [insertGroup, hbeq, Bool.false_eq_true, if_false, List.map_cons, ih]
      by_cases hmem : k ∈ rest.map Prod.fst
      · simp [hmem, List.mem_cons, Ne.symm hk]
      · simp [hmem, List.mem_cons, Ne.symm hk]

theorem groupStep_cases (g m : String) (acc : List (String × List (Option ℚ)))
    (row : Row) :
    groupStep g m acc row = acc ∨
    ∃ kv mv, rowGet row g = some kv ∧ rowGet row m = some mv ∧
      ¬(kv = Value.null ∨ mv = Value.null) ∧
      groupStep g m acc row = insertGroup acc (valueKey kv) mv.toNum := by
  unfold groupStep
  cases hg : rowGet row g with
  | none => exact Or.inl rfl
  | some kv =>
    cases hm : rowGet row m with
    | none => exact Or.inl rfl
    | some mv =>
      by_cases hnull : kv = Value.null ∨ mv = Value.null
      · exact Or.inl (if_pos hnull)
      · exact Or.inr ⟨kv, mv, rfl, rfl, hnull, if_neg hnull⟩

theorem foldl_groupStep_keys_nodup (g m : String) :
    ∀ (data : List Row) (acc : List (String × List (Option ℚ))),
      (acc.map Prod.fst).Nodup →
      ((data.foldl (groupStep g m) acc).map Prod.fst).Nodup := by
  intro data
  induction data with
  | nil => intro acc h; exact h
  | cons row rows ih =>
    intro acc h
    apply ih
    rcases groupStep_cases g m acc row with heq | ⟨kv, mv, _, _, _, heq⟩ <;> rw [heq]
    · exact h
    · rw [insertGroup_keys]
      by_cases hmem : valueKey kv ∈ acc.map Prod.fst
      · rw [if_pos hmem]; exact h
      · rw [if_neg hmem]
        simp [List.nodup_append, h, hmem]

theorem foldl_groupStep_keys_origin (g m : String) :
    ∀ (data : List Row) (acc : List (String × List (Option ℚ))) (k' : String),
      k' ∈ (data.foldl (groupStep g m) acc).map Prod.fst →
      k' ∈ acc.map Prod.fst ∨
        ∃ row ∈ data, ∃ v, rowGet row g = some v ∧ v ≠ Value.null ∧
          k' = valueKey v := by
  intro data
  induction data with
  | nil => intro acc k' h; exact Or.inl h
  | cons row rows ih =>
    intro acc k' h
    rcases ih _ k' h with hacc | ⟨row', hrow', hrest⟩
    · rcases groupStep_cases g m acc row with heq | ⟨kv, mv, hg, hm, hnull, heq⟩ <;>
        rw [heq] at hacc
      · exact Or.inl hacc
      · rw [insertGroup_keys] at hacc
        by_cases hmem : valueKey kv ∈ acc.map Prod.fst
        · rw [if_pos hmem] at hacc; exact Or.inl hacc
        · rw [if_neg hmem] at hacc
          rcases List.mem_append.mp hacc with hacc | hacc
          · exact Or.inl hacc
          · refine Or.inr ⟨row, List.mem_cons_self row rows, kv, hg, ?_, ?_⟩
            · intro hKnull
              exact hnull (Or.inl hKnull)
            · simpa using hacc
    · exact Or.inr ⟨row', List.mem_cons_of_mem row hrow', hrest⟩

/-- The list of non-null values found in the grouping column, one per
contributing row (the claim's "distinct non-null group-key values" is
its `dedup`). -/
def groupVals (data : List Row) (g : String) : List Value :=
  data.filterMap (fun r =>
    match rowGet r g with
    | some k => if k = Value.null then none else some k
    | none => none)

theorem dedup_map_length_le {α β : Type} [DecidableEq α] [DecidableEq β]
    (f : α → β) : ∀ (l : List α), ((l.map f).dedup).length ≤ l.dedup.length := by
  intro l
  induction l with
  | nil => simp
  | cons x xs ih =>
    by_cases hx : x ∈ xs
    · rw [List.dedup_cons_of_mem hx, List.map_cons,
        List.dedup_cons_of_mem (List.mem_map_of_mem f hx)]
      exact ih
    · rw [List.dedup_cons_of_not_mem hx, List.map_cons]
      by_cases hfx : f x ∈ xs.map f
      · rw [List.dedup_cons_of_mem hfx]
        exact le_trans ih (by simp)
      · rw [List.dedup_cons_of_not_mem hfx]
        simpa using ih

theorem buildGroups_length_le (data : List Row) (g m : String) :
    (buildGroups data g m).length ≤ (groupVals data g).dedup.length := by
  have hnodup : ((buildGroups data g m).map Prod.fst).Nodup :=
    foldl_groupStep_keys_nodup g m data [] (by simp)
  have hsubset : (buildGroups data g m).map Prod.fst ⊆
      ((groupVals data g).map valueKey).dedup := by
    intro k hk
    rcases foldl_groupStep_keys_origin g m data [] k hk with h0 | ⟨row, hrow, v, hv, hvnull, rfl⟩
    · simp at h0
    · refine List.mem_dedup.mpr (List.mem_map_of_mem valueKey ?_)
      refine List.mem_filterMap.mpr ⟨row, hrow, ?_⟩
      rw [hv]
      exact if_neg hvnull
  calc (buildGroups data g m).length
      = ((buildGroups data g m).map Prod.fst).length := by simp
    _ ≤ ((groupVals data g).map valueKey).dedup.length :=
        (List.subperm_of_subset hnodup hsubset).length_le
    _ ≤ (groupVals data g).dedup.length := dedup_map_length_le valueKey _

/-- "Entry `a`'s aggregated value is a number at least entry `b`'s":
the descending-order relation on output entries.  `false` whenever
either value is `NaN`. -/
def entryGEB (a b : String × Option ℚ) : Bool :=
  match a.2, b.2 with
  | some p, some q => decide (q ≤ p)
  | _, _ => false

theorem optGtB_true {a b : Option ℚ} (h : optGtB a b = true) :
    ∃ p q, a = some p ∧ b = some q ∧ q < p := by
  rcases a with _ | p <;> rcases b with _ | q <;> simp [optGtB] at h ⊢
  exact h

theorem entryGEB_iff {a b : String × Option ℚ} :
    entryGEB a b = true ↔ ∃ p q, a.2 = some p ∧ b.2 = some q ∧ q ≤ p := by
  rcases ha : a.2 with _ | p <;> rcases hb : b.2 with _ | q <;>
    simp [entryGEB, ha, hb]

theorem aggregateData_sublist (data : List Row) (g m method : String)
    (limit : Option ℤ) :
    (aggregateData data g m method limit).Sublist
      (sortByPrec (fun a b => optGtB a.2 b.2) (aggEntries data g m method)) := by
  simp only [aggregateData]
  split
  · split
    · exact List.take_sublist _ _
    · exact List.Sublist.refl _
  · exact List.Sublist.refl _

/-- Claim C5 (amended): the output of `aggregateData` has at most as
many entries as there are distinct non-null group-key values, at most
`limit` entries when a positive limit is given, and is sorted descending
by the aggregated metric value provided every aggregated value is an
actual number (a non-numeric metric value yields `NaN`, on which the JS
comparator imposes no order). -/
theorem claim_C5_agg_bounds (data : List Row) (g m method : String)
    (limit : Option ℤ) :
    ((aggregateData data g m method limit).length ≤
        (groupVals data g).dedup.length) ∧
    (∀ l : ℤ, limit = some l → 0 < l →
      ((aggregateData data g m method limit).length : ℤ) ≤ l) ∧
    ((∀ e ∈ aggEntries data g m method, e.2 ≠ none) →
      (aggregateData data g m method limit).Pairwise
        (fun a b => entryGEB a b = true)) := by
  have hsub := aggregateData_sublist data g m method limit
  have hsortlen :
      (sortByPrec (fun a b => optGtB a.2 b.2) (aggEntries data g m method)).length =
        (aggEntries data g m method).length :=
    (sortByPrec_perm _ _).length_eq
  refine ⟨?_, ?_, ?_⟩
  · calc (aggregateData data g m method limit).length
        ≤ (sortByPrec (fun a b => optGtB a.2 b.2) (aggEntries data g m method)).length :=
          hsub.length_le
      _ = (buildGroups data g m).length := by rw [hsortlen]; simp [aggEntries]
      _ ≤ (groupVals data g).dedup.length := buildGroups_length_le data g m
  · intro l hl hpos
    subst hl
    simp only [aggregateData]
    by_cases hc : 0 < l ∧ l <
        ((sortByPrec (fun a b => optGtB a.2 b.2) (aggEntries data g m method)).length : ℤ)
    · rw [if_pos hc]
      simp only [List.length_take]
      omega
    · rw [if_neg hc]
      push_neg at hc
      have := hc hpos
      omega
  · intro hsome
    have hPall : ∀ z ∈ sortByPrec (fun a b => optGtB a.2 b.2)
        (aggEntries data g m method), z.2 ≠ none :=
      fun z hz => hsome z ((sortByPrec_perm _ _).mem_iff.mp hz)
    refine List.Pairwise.sublist hsub ?_
    apply pairwise_sortByPrec (P := fun e => e.2 ≠ none)
    · intro a b _ _ hab
      rcases optGtB_true hab with ⟨p, q, ha, hb, hlt⟩
      exact entryGEB_iff.mpr ⟨p, q, ha, hb, le_of_lt hlt⟩
    · intro a b hPa hPb hab
      rcases Option.ne_none_iff_exists'.mp hPa with ⟨p, hp⟩
      rcases Option.ne_none_iff_exists'.mp hPb with ⟨q, hq⟩
      rw [hp, hq] at hab
      have hle : p ≤ q := by
        simp [optGtB] at hab
        exact hab
      exact entryGEB_iff.mpr ⟨q, p, hq, hp, hle⟩
    · intro a b c _ _ _ hab hbc
      rcases entryGEB_iff.mp hab with ⟨p, q, ha, hb, h1⟩
      rcases entryGEB_iff.mp hbc with ⟨q', r, hb', hc', h2⟩
      rw [hb] at hb'
      obtain rfl : q = q' := Option.some.inj hb'
      exact entryGEB_iff.mpr ⟨p, r, ha, hc', le_trans h2 h1⟩
    · exact hsome

/-- Rows whose metric column holds a non-numeric string, producing a
`NaN` aggregate. -/
def nanRows : List Row :=
  [[("g", Value.str "a"), ("m", Value.str "x")],
   [("g", Value.str "b"), ("m", Value.num 5)]]

/-- Counterexample to claim C5 as stated for every input: with a
non-numeric metric value the aggregated value is `NaN` and the output is
not sorted descending by value. -/
theorem claim_C5_counterexample :
    ¬ (aggregateData nanRows "g" "m" "sum" none).Pairwise
        (fun a b => entryGEB a b = true) := by
  norm_num [aggregateData, aggEntries, buildGroups, groupStep, rowGet, insertGroup,
    valueKey, Value.toNum, jsParseNum, parseDigitsAux, optSum, optAdd, aggValue,
    nanRows, sortByPrec, insertBy, optGtB, entryGEB, List.find?,
    show ("sum" : String) ≠ "count" by decide,
    show ("g" : String) ≠ "m" by decide,
    show ("m" : String) ≠ "g" by decide,
    show (("g" : String) == "m") = false by decide,
    show (("m" : String) == "g") = false by decide,
    show ('x' : Char) ≠ '-' by decide,
    show ('x'.isDigit) = false by decide,
    show ("a" : String) ≠ "b" by decide, show ("b" : String) ≠ "a" by decide,
    show (("a" : String) == "b") = false by decide,
    show (("b" : String) == "a") = false by decide,
    value_str_ne_null, value_num_ne_null]

/-- Witness for C5 at the example rows with limit 1. -/
theorem claim_C5_agg_bounds_witness :
    ((aggregateData exampleRows "region" "sales" "sum" (some 1)).length ≤
        (groupVals exampleRows "region").dedup.length) ∧
    (((aggregateData exampleRows "region" "sales" "sum" (some 1)).length : ℤ) ≤ 1) ∧
    ((aggregateData exampleRows "region" "sales" "sum" (some 1)).Pairwise
        (fun a b => entryGEB a b = true)) := by
  have hagg : aggEntries exampleRows "region" "sales" "sum" =
      [("A", some 40), ("B", some 20)] := by
    norm_num [aggEntries, buildGroups, groupStep, rowGet, insertGroup, valueKey,
      Value.toNum, optSum, optAdd, aggValue, exampleRows, List.find?,
      show ("sum" : String) ≠ "count" by decide,
      show ("region" : String) ≠ "sales" by decide,
      show ("sales" : String) ≠ "region" by decide,
      show (("region" : String) == "sales") = false by decide,
      show (("sales" : String) == "region") = false by decide,
      show ("A" : String) ≠ "B" by decide, show ("B" : String) ≠ "A" by decide,
      show (("A" : String) == "B") = false by decide,
      show (("B" : String) == "A") = false by decide,
      value_str_ne_null, value_num_ne_null]
  obtain ⟨h1, h2, h3⟩ :=
    claim_C5_agg_bounds exampleRows "region" "sales" "sum" (some 1)
  refine ⟨h1, h2 1 rfl (by norm_num), h3 ?_⟩
  rw [hagg]
  simp

/-- Claim C10: every entry of `aggregateData`'s output carries as its
group-key field the string coercion of an original grouping value
(object keys are strings), not the original typed value. -/
theorem claim_C10_group_keys_strings (data : List Row) (g m method : String)
    (limit : Option ℤ) (e : String × Option ℚ)
    (he : e ∈ aggregateData data g m method limit) :
    ∃ row ∈ data, ∃ v, rowGet row g = some v ∧ v ≠ Value.null ∧
      e.1 = valueKey v := by
  have hsub := aggregateData_sublist data g m method limit
  have he2 : e ∈ sortByPrec (fun a b => optGtB a.2 b.2)
      (aggEntries data g m method) := hsub.subset he
  have he3 : e ∈ aggEntries data g m method :=
    (sortByPrec_perm _ _).mem_iff.mp he2
  rcases List.mem_map.mp he3 with ⟨p, hp, rfl⟩
  have hkey : p.1 ∈ (buildGroups data g m).map Prod.fst :=
    List.mem_map_of_mem Prod.fst hp
  rcases foldl_groupStep_keys_origin g m data [] p.1 hkey with h0 | hex
  · simp at h0
  · exact hex

/-- Witness for C10 at the example rows: the key `"A"` of the top entry
is the string coercion of the grouping value of a row. -/
theorem claim_C10_group_keys_strings_witness :
    ∃ row ∈ exampleRows, ∃ v, rowGet row "region" = some v ∧ v ≠ Value.null ∧
      (("A", some (40 : ℚ)) : String × Option ℚ).1 = valueKey v := by
  have hval : aggregateData exampleRows "region" "sales" "sum" none =
      [("A", some 40), ("B", some 20)] := by
    norm_num [aggregateData, aggEntries, buildGroups, groupStep, rowGet, insertGroup,
      valueKey, Value.toNum, optSum, optAdd, aggValue, exampleRows, sortByPrec,
      insertBy, optGtB, List.find?,
      show ("sum" : String) ≠ "count" by decide,
      show ("region" : String) ≠ "sales" by decide,
      show ("sales" : String) ≠ "region" by decide,
      show (("region" : String) == "sales") = false by decide,
      show (("sales" : String) == "region") = false by decide,
      show ("A" : String) ≠ "B" by decide, show ("B" : String) ≠ "A" by decide,
      show (("A" : String) == "B") = false by decide,
      show (("B" : String) == "A") = false by decide,
      value_str_ne_null, value_num_ne_null]
  apply claim_C10_group_keys_strings exampleRows "region" "sales" "sum" none
  rw [hval]
  simp

/-- Shallow embedding of `calculateCorrelation(xValues, yValues)` from
DataProcessor: Pearson correlation with exact rational sums/means and
the real square root standing in for `Math.sqrt`.  The index loop over
both arrays (equal length at this point) is the sum over the zipped
lists. -/
noncomputable def calculateCorrelation (xValues yValues : List ℚ) : ℝ :=
  let n := xValues.length
  if n ≠ yValues.length ∨ n = 0 then 0
  else
    let xMean : ℚ := xValues.sum / (n : ℚ)
    let yMean : ℚ := yValues.sum / (n : ℚ)
    let numerator : ℚ :=
      ((xValues.zip yValues).map (fun p => (p.1 - xMean) * (p.2 - yMean))).sum
    let xDenom : ℚ := (xValues.map (fun x => (x - xMean) * (x - xMean))).sum
    let yDenom : ℚ := (yValues.map (fun y => (y - yMean) * (y - yMean))).sum
    let denominator : ℝ := Real.sqrt (((xDenom * yDenom : ℚ) : ℝ))
    if denominator = 0 then 0 else (numerator : ℚ) / denominator

theorem zip_self {α : Type} (l : List α) : l.zip l = l.map (fun x => (x, x)) := by
  induction l with
  | nil => rfl
  | cons x xs ih => simp [List.zip_cons_cons, ih]

theorem sum_eq_length_mul {l : List ℚ} {c : ℚ} (h : ∀ a ∈ l, a = c) :
    l.sum = (l.length : ℚ) * c := by
  induction l with
  | nil => simp
  | cons x xs ih =>
    have hx : x = c := h x (List.mem_cons_self x xs)
    have ht : xs.sum = (xs.length : ℚ) * c :=
      ih (fun a ha => h a (List.mem_cons_of_mem x ha))
    simp [hx, ht]
    ring

/-- Claim C6: self-correlation of a non-constant sequence of length at
least 2 is exactly 1, and the correlation of a constant sequence with
any equal-length sequence is 0 (the zero-denominator convention). -/
theorem claim_C6_correlation (xs ys : List ℚ) :
    (2 ≤ xs.length → (∃ a ∈ xs, ∃ b ∈ xs, a ≠ b) →
      calculateCorrelation xs xs = 1) ∧
    ((∀ a ∈ xs, ∀ b ∈ xs, a = b) → ys.length = xs.length →
      calculateCorrelation xs ys = 0) := by
  constructor
  · intro hlen hnc
    obtain ⟨a, ha, b, hb, hab⟩ := hnc
    have hne : xs.length ≠ 0 := by
      intro h0
      rw [List.length_eq_zero] at h0
      rw [h0] at ha
      cases ha
    have hcond : ¬ (xs.length ≠ xs.length ∨ xs.length = 0) := by
      push_neg
      exact ⟨rfl, hne⟩
    set m : ℚ := xs.sum / (xs.length : ℚ) with hm
    set S : ℚ := (xs.map (fun x => (x - m) * (x - m))).sum with hS
    have hSpos : 0 < S := by
      have hx0 : ∃ x ∈ xs, x ≠ m := by
        by_contra hall
        push_neg at hall
        exact hab ((hall a ha).trans (hall b hb).symm)
      obtain ⟨x0, hx0mem, hx0ne⟩ := hx0
      have hterm : (x0 - m) * (x0 - m) ∈ xs.map (fun x => (x - m) * (x - m)) :=
        List.mem_map_of_mem _ hx0mem
      have hpos : 0 < (x0 - m) * (x0 - m) :=
        mul_self_pos.mpr (sub_ne_zero.mpr hx0ne)
      have hle : (x0 - m) * (x0 - m) ≤ S :=
        List.single_le_sum (fun z hz => by
          rcases List.mem_map.mp hz with ⟨v, _, rfl⟩
          exact mul_self_nonneg _) _ hterm
      linarith
    have hnum : ((xs.zip xs).map (fun p => (p.1 - m) * (p.2 - m))).sum = S := by
      rw [zip_self, List.map_map]
      rfl
    have hsqrt : Real.sqrt (((S * S : ℚ) : ℝ)) = (S : ℝ) := by
      push_cast
      exact Real.sqrt_mul_self (by positivity)
    simp only [calculateCorrelation, if_neg hcond]
    rw [hnum, hsqrt]
    rw [if_neg (by positivity)]
    exact div_self (by positivity)
  · intro hconst hlen
    cases hxs : xs with
    | nil =>
      simp [calculateCorrelation]
    | cons x xt =>
      subst hxs
      have hne : (x :: xt).length ≠ 0 := by simp
      have hcond : ¬ ((x :: xt).length ≠ ys.length ∨ (x :: xt).length = 0) := by
        push_neg
        exact ⟨hlen.symm, hne⟩
      have hq : (((x :: xt).length : ℚ)) ≠ 0 := Nat.cast_ne_zero.mpr hne
      have hmean : (x :: xt).sum / (((x :: xt).length : ℚ)) = x := by
        rw [sum_eq_length_mul (fun a ha => hconst a ha x (List.mem_cons_self x xt)),
          mul_comm, mul_div_assoc, div_self hq, mul_one]
      have hzero : ((x :: xt).map (fun v =>
          (v - (x :: xt).sum / (((x :: xt).length : ℚ))) *
          (v - (x :: xt).sum / (((x :: xt).length : ℚ))))).sum = 0 := by
        apply List.sum_eq_zero
        intro z hz
        rcases List.mem_map.mp hz with ⟨v, hv, rfl⟩
        have : v = x := hconst v hv x (List.mem_cons_self x xt)
        rw [this, hmean]
        ring
      simp only [calculateCorrelation, if_neg hcond]
      rw [hzero]
      rw [if_pos (by norm_num [Real.sqrt_eq_zero'])]

/-- Witness for C6: the non-constant pair and a constant pair. -/
theorem claim_C6_correlation_witness :
    calculateCorrelation [0, 1] [0, 1] = 1 ∧
    calculateCorrelation [2, 2] [5, 7] = 0 :=
  ⟨(claim_C6_correlation [0, 1] [0, 1]).1 (by decide)
      ⟨0, by simp, 1, by simp, by norm_num⟩,
   (claim_C6_correlation [2, 2] [5, 7]).2
      (by intro a ha b hb
          rcases List.mem_cons.mp ha with rfl | ha' <;>
            rcases List.mem_cons.mp hb with rfl | hb' <;> simp_all)
      (by decide)⟩

/-- The index-drawing loop of `sampleData`:
`while (indices.size < limit) indices.add(Math.floor(Math.random() * total))`.
The successive values of `Math.floor(Math.random() * total)` are given by
the stream `rand`, and the explicit `fuel` bound stands in for the
probabilistic termination of the rejection sampling (the JS loop is
unbounded and terminates with probability 1); the `Set` keeps first
insertion order, modelled by appending fresh values. -/
def drawLoop (limit : Nat) (rand : Nat → Nat) : Nat → Nat → List Nat → List Nat
  | 0, _, acc => acc
  | fuel + 1, k, acc =>
    if acc.length < limit then
      drawLoop limit rand fuel (k + 1)
        (if rand k ∈ acc then acc else acc ++ [rand k])
    else acc

/-- Shallow embedding of `sampleData(data, limit)` from DataProcessor;
the guard `limit >= total` of the source is subsumed by the first check
(`data.length ≤ limit`) exactly as its comment notes.  The drawn-index
set is traversed in insertion order (`indices.forEach`). -/
def sampleData (data : List Row) (limit : Nat) (rand : Nat → Nat)
    (fuel : Nat) : List Row :=
  if data.length ≤ limit then data
  else (drawLoop limit rand fuel 0 []).map (fun i => data.getD i default)

theorem drawLoop_nodup (limit : Nat) (rand : Nat → Nat) :
    ∀ (fuel k : Nat) (acc : List Nat), acc.Nodup →
      (drawLoop limit rand fuel k acc).Nodup := by
  intro fuel
  induction fuel with
  | zero => intro k acc h; exact h
  | succ n ih =>
    intro k acc h
    by_cases hlen : acc.length < limit
    · rw [drawLoop, if_pos hlen]
      apply ih
      by_cases hmem : rand k ∈ acc
      · rw [if_pos hmem]; exact h
      · rw [if_neg hmem]
        simp [List.nodup_append, h, hmem]
    · rw [drawLoop, if_neg hlen]
      exact h

theorem drawLoop_mem (limit : Nat) (rand : Nat → Nat) :
    ∀ (fuel k : Nat) (acc : List Nat) (x : Nat),
      x ∈ drawLoop limit rand fuel k acc → x ∈ acc ∨ ∃ j, x = rand j := by
  intro fuel
  induction fuel with
  | zero => intro k acc x h; exact Or.inl h
  | succ n ih =>
    intro k acc x h
    by_cases hlen : acc.length < limit
    · rw [drawLoop, if_pos hlen] at h
      rcases ih (k + 1) _ x h with hacc | hj
      · by_cases hmem : rand k ∈ acc
        · rw [if_pos hmem] at hacc
          exact Or.inl hacc
        · rw [if_neg hmem] at hacc
          rcases List.mem_append.mp hacc with hacc | hacc
          · exact Or.inl hacc
          · exact Or.inr ⟨k, by simpa using hacc⟩
      · exact Or.inr hj
    · rw [drawLoop, if_neg hlen] at h
      exact Or.inl h

/-- Claim C8: `sampleData` returns the input itself when
`rows.length ≤ limit`; otherwise (given in-range random draws and enough
draws for the rejection-sampling loop to complete) it returns exactly
`limit` elements taken at pairwise-distinct indices of the input. -/
theorem claim_C8_sampleData (data : List Row) (limit : Nat) (rand : Nat → Nat)
    (fuel : Nat) :
    (data.length ≤ limit → sampleData data limit rand fuel = data) ∧
    (limit < data.length → (∀ k, rand k < data.length) →
      (drawLoop limit rand fuel 0 []).length = limit →
      ∃ picks : List Nat, picks.Nodup ∧ picks.length = limit ∧
        (∀ i ∈ picks, i < data.length) ∧
        sampleData data limit rand fuel =
          picks.map (fun i => data.getD i default)) := by
  constructor
  · intro h
    simp [sampleData, h]
  · intro hlt hrand hdone
    refine ⟨drawLoop limit rand fuel 0 [],
      drawLoop_nodup limit rand fuel 0 [] (by simp), hdone, ?_, ?_⟩
    · intro i hi
      rcases drawLoop_mem limit rand fuel 0 [] i hi with h0 | ⟨j, rfl⟩
      · cases h0
      · exact hrand j
    · rw [sampleData, if_neg (not_le.mpr hlt)]

/-- Three concrete rows for the C8 witness. -/
def sampleRows : List Row :=
  [[("a", Value.num 1)], [("a", Value.num 2)], [("a", Value.num 3)]]

/-- Witness for C8: sampling 2 of 3 rows with the draw stream
`k % 3` completes in 5 iterations and returns 2 rows at distinct
indices. -/
theorem claim_C8_sampleData_witness :
    ∃ picks : List Nat, picks.Nodup ∧ picks.length = 2 ∧
      (∀ i ∈ picks, i < sampleRows.length) ∧
      sampleData sampleRows 2 (fun k => k % 3) 5 =
        picks.map (fun i => sampleRows.getD i default) :=
  (claim_C8_sampleData sampleRows 2 (fun k => k % 3) 5).2 (by decide)
    (fun k => Nat.mod_lt _ (by decide)) (by decide)

/-- A chart recommendation.  `score` is a real number because the
correlation rules add `|r| * 30` and `|r| * 10`.  The correlation value
interpolated into some description strings (`r.toFixed(2)`) is omitted
from the model: deduplication keys on `title` only, and no claim
concerns description text. -/
structure Recommendation where
  rtype : String
  xAxis : String
  yAxis : String
  sizeAxis : Option String := none
  title : String
  description : String
  score : ℝ
  isHistogram : Bool := false

/-- JS `col.stats.stdDev > 0` (`false` when the field is absent). -/
def stdDevPos (s : Stats) : Prop :=
  match s.stdDev with
  | some d => 0 < d
  | none => False

/-- JS `col.stats.variance > 1000` (`false` when absent). -/
def varGt1000 (s : Stats) : Bool :=
  match s.variance with
  | some v => decide (1000 < v)
  | none => false

/-- JS `c.stats.variance > 0` (`false` when absent). -/
def varPos (s : Stats) : Bool :=
  match s.variance with
  | some v => decide (0 < v)
  | none => false

/-- JS `numCol.stats.min >= 0` (`false` when absent). -/
def minNonneg (s : Stats) : Bool :=
  match s.min with
  | some m0 => decide (0 ≤ m0)
  | none => false

/-- JS `uniqueCount > c` on a possibly-absent count. -/
def uGt (u : Option Nat) (c : Nat) : Bool :=
  match u with
  | some n => decide (c < n)
  | none => false

/-- JS `uniqueCount <= c` on a possibly-absent count. -/
def uLe (u : Option Nat) (c : Nat) : Bool :=
  match u with
  | some n => decide (n ≤ c)
  | none => false

noncomputable instance stdDevPosDec (s : Stats) : Decidable (stdDevPos s) := by
  unfold stdDevPos
  cases s.stdDev <;> infer_instance

/-- Rule 1 of `getRecommendations` (distribution bars for numeric
columns with positive spread). -/
noncomputable def distRecs (numericCols : List Column) : List Recommendation :=
  numericCols.foldr (fun col acc =>
    if stdDevPos col.stats then
      { rtype := "bar", xAxis := col.key, yAxis := col.key,
        title := "Distribution of " ++ col.label,
        description := "Shows how " ++ col.label ++ " is spread across the dataset.",
        score := 50 + (if varGt1000 col.stats then (20 : ℝ) else 0),
        isHistogram := true } :: acc
    else acc) []

/-- The line recommendation of rule 2 for one numeric column. -/
def mkLineRec (dateCol numCol : Column) : Recommendation :=
  { rtype := "line", xAxis := dateCol.key, yAxis := numCol.key,
    title := numCol.label ++ " over Time",
    description := "Track " ++ numCol.label ++ " trends based on " ++
      dateCol.label ++ ".",
    score := 90 }

/-- Rule 2 of `getRecommendations` (a line chart per numeric column over
the first date column). -/
def trendRecs (dateCols numericCols : List Column) : List Recommendation :=
  match dateCols with
  | [] => []
  | dateCol :: _ =>
    if 0 < numericCols.length then numericCols.map (mkLineRec dateCol) else []

/-- The inner numeric-column loop of rule 3: an optional pie followed by
the always-proposed bar, per numeric column. -/
def pieBarRecs (catCol : Column) (numericCols : List Column) :
    List Recommendation :=
  numericCols.foldr (fun numCol acc2 =>
    (if uLe catCol.stats.uniqueCount 6 && minNonneg numCol.stats then
       [{ rtype := "pie", xAxis := catCol.key, yAxis := numCol.key,
          title := numCol.label ++ " Share by " ++ catCol.label,
          description := "Part-of-whole view for " ++ numCol.label ++ ".",
          score := 75 }]
     else []) ++
    ({ rtype := "bar", xAxis := catCol.key, yAxis := numCol.key,
       title := numCol.label ++ " by " ++ catCol.label,
       description := "Compare " ++ numCol.label ++ " across different " ++
         catCol.label ++ ".",
       score := 80 } :: acc2)) []

/-- Rule 3 of `getRecommendations` (pie for small positive categorical
splits, bar always), skipping category columns with more than 50
distinct values. -/
def catRecs (categoryCols numericCols : List Column) : List Recommendation :=
  categoryCols.foldr (fun catCol acc =>
    (if uGt catCol.stats.uniqueCount 50 then []
     else pieBarRecs catCol numericCols) ++ acc) []

/-- The ToNumber coercion the correlation arithmetic applies to raw cell
values (`undefined`, `null` and non-numeric strings are abstracted to 0
here; rule 4's outcome at such inputs is not the subject of any
claim). -/
def arithValue (v : Option Value) : ℚ :=
  match v with
  | some w => (Value.toNum w).getD 0
  | none => 0

/-- Rules 4 and 5 of `getRecommendations` for one ordered pair of
numeric columns: a scatter plot when `|r| ≥ 0.3`, plus a bubble chart if
a third numeric column with positive variance exists. -/
noncomputable def pairCorrRecs (data : List Row) (numericCols : List Column)
    (colA colB : Column) : List Recommendation :=
  let valsA := data.map (fun d => arithValue (rowGet d colA.key))
  let valsB := data.map (fun d => arithValue (rowGet d colB.key))
  let correlation := calculateCorrelation valsA valsB
  if 0.3 ≤ |correlation| then
    let strength := if 0.7 < |correlation| then "Strong" else "Moderate"
    let direction := if 0 < correlation then "positive" else "negative"
    { rtype := "scatter", xAxis := colA.key, yAxis := colB.key,
      title := colA.label ++ " vs " ++ colB.label,
      description := strength ++ " " ++ direction ++ " correlation.",
      score := 70 + |correlation| * 30 } ::
    (match numericCols.find? (fun c =>
        c.key != colA.key && c.key != colB.key && varPos c.stats) with
     | some sizeCol =>
       [{ rtype := "bubble", xAxis := colA.key, yAxis := colB.key,
          sizeAxis := some sizeCol.key,
          title := "Multivariate: " ++ colA.label ++ " vs " ++ colB.label ++
            " vs " ++ sizeCol.label,
          description := "Complex system analysis.",
          score := 85 + |correlation| * 10 }]
     | none => [])
  else []

/-- The `i < j` double loop of rules 4 and 5. -/
noncomputable def corrRecsAux (data : List Row) (numericCols : List Column) :
    List Column → List Recommendation
  | [] => []
  | a :: rest =>
    (rest.map (pairCorrRecs data numericCols a)).flatten ++
      corrRecsAux data numericCols rest

/-- All candidate recommendations of `getRecommendations`, in generation
order (rules 1 to 5), before sorting, deduplication and truncation. -/
noncomputable def recCandidates (data : List Row) (columns : List Column) :
    List Recommendation :=
  let numericCols := columns.filter (fun c => c.type == "number")
  let categoryCols := columns.filter
    (fun c => c.type == "category" || c.type == "text")
  let dateCols := columns.filter (fun c => c.type == "date")
  distRecs numericCols ++ trendRecs dateCols numericCols ++
    catRecs categoryCols numericCols ++ corrRecsAux data numericCols numericCols

/-- Keep the first (highest-scoring after the sort) recommendation per
title. -/
def dedupByTitle : List Recommendation → List String → List Recommendation
  | [], _ => []
  | r :: rest, seen =>
    if r.title ∈ seen then dedupByTitle rest seen
    else r :: dedupByTitle rest (r.title :: seen)

/-- Shallow embedding of `getRecommendations(data, columns)`: generate
candidates, sort by score descending (stable), deduplicate by title
keeping the first occurrence, return the top 4. -/
noncomputable def getRecommendations (data : List Row) (columns : List Column) :
    List Recommendation :=
  (dedupByTitle
    (sortByPrec (fun a b => decide (b.score < a.score)) (recCandidates data columns))
    []).take 4

theorem filter_line_eq_nil {l : List Recommendation}
    (h : ∀ r ∈ l, r.rtype ≠ "line") :
    l.filter (fun r => r.rtype == "line") = [] := by
  induction l with
  | nil => rfl
  | cons x xs ih =>
    have hx : (x.rtype == "line") = false :=
      beq_eq_false_iff_ne.mpr (h x (List.mem_cons_self x xs))
    simp only [List.filter_cons, hx, Bool.false_eq_true, if_false]
    exact ih (fun r hr => h r (List.mem_cons_of_mem x hr))

theorem distRecs_no_line (l : List Column) :
    ∀ r ∈ distRecs l, r.rtype ≠ "line" := by
  induction l with
  | nil => intro r hr; cases hr
  | cons c cs ih =>
    intro r hr
    simp only [distRecs, List.foldr_cons] at hr
    split at hr
    · rcases List.mem_cons.mp hr with rfl | hr2
      · exact (by decide : ("bar" : String) ≠ "line")
      · exact ih r hr2
    · exact ih r hr

theorem pieBarRecs_no_line (catCol : Column) (ncols : List Column) :
    ∀ r ∈ pieBarRecs catCol ncols, r.rtype ≠ "line" := by
  induction ncols with
  | nil => intro r hr; cases hr
  | cons n ns ih =>
    intro r hr
    simp only [pieBarRecs, List.foldr_cons] at hr
    rcases List.mem_append.mp hr with h1 | h2
    · split at h1
      · rcases List.mem_cons.mp h1 with rfl | h1'
        · exact (by decide : ("pie" : String) ≠ "line")
        · cases h1'
      · cases h1
    · rcases List.mem_cons.mp h2 with rfl | h3
      · exact (by decide : ("bar" : String) ≠ "line")
      · exact ih r h3

theorem catRecs_no_line (ccols ncols : List Column) :
    ∀ r ∈ catRecs ccols ncols, r.rtype ≠ "line" := by
  induction ccols with
  | nil => intro r hr; cases hr
  | cons c cs ih =>
    intro r hr
    simp only [catRecs, List.foldr_cons] at hr
    rcases List.mem_append.mp hr with h1 | h2
    · split at h1
      · cases h1
      · exact pieBarRecs_no_line c ncols r h1
    · exact ih r h2

theorem pairCorrRecs_no_line (data : List Row) (ncols : List Column)
    (a b : Column) :
    ∀ r ∈ pairCorrRecs data ncols a b, r.rtype ≠ "line" := by
  intro r hr
  simp only [pairCorrRecs] at hr
  split at hr
  · rcases List.mem_cons.mp hr with rfl | hr2
    · exact (by decide : ("scatter" : String) ≠ "line")
    · split at hr2
      · rcases List.mem_cons.mp hr2 with rfl | hr3
        · exact (by decide : ("bubble" : String) ≠ "line")
        · cases hr3
      · cases hr2
  · cases hr

theorem corrRecsAux_no_line (data : List Row) (ncols : List Column) :
    ∀ cols, ∀ r ∈ corrRecsAux data ncols cols, r.rtype ≠ "line" := by
  intro cols
  induction cols with
  | nil => intro r hr; cases hr
  | cons a rest ih =>
    intro r hr
    simp only [corrRecsAux] at hr
    rcases List.mem_append.mp hr with h1 | h2
    · rcases List.mem_flatten.mp h1 with ⟨l, hl, hrl⟩
      rcases List.mem_map.mp hl with ⟨b, _, rfl⟩
      exact pairCorrRecs_no_line data ncols a b r hrl
    · exact ih r h2

theorem trend_filter_line (d : Column) (l : List Column) :
    ((l.map (mkLineRec d)).filter (fun r => r.rtype == "line")) =
      l.map (mkLineRec d) := by
  induction l with
  | nil => rfl
  | cons c cs ih => simp [mkLineRec, ih]

/-- Claim C4 (amended): whenever there is at least one date column and
at least one numeric column, the candidate list generated by
`getRecommendations` (before its score sort, title deduplication and
top-4 truncation) contains exactly one line recommendation per numeric
column — the line recommendations are precisely `mkLineRec d` mapped
over the numeric columns, each with score 90 and the first date column
as x-axis. -/
theorem claim_C4_line_candidates (data : List Row) (columns : List Column)
    (d : Column) (ds : List Column)
    (hdate : columns.filter (fun c => c.type == "date") = d :: ds)
    (hnum : columns.filter (fun c => c.type == "number") ≠ []) :
    ((recCandidates data columns).filter (fun r => r.rtype == "line") =
      (columns.filter (fun c => c.type == "number")).map (mkLineRec d)) ∧
    (∀ c : Column, (mkLineRec d c).rtype = "line" ∧
      (mkLineRec d c).xAxis = d.key ∧ (mkLineRec d c).score = 90) := by
  refine ⟨?_, fun c => ⟨rfl, rfl, rfl⟩⟩
  simp only [recCandidates]
  rw [List.filter_append, List.filter_append, List.filter_append,
    filter_line_eq_nil (distRecs_no_line _), filter_line_eq_nil (catRecs_no_line _ _),
    filter_line_eq_nil (corrRecsAux_no_line _ _ _), hdate]
  simp only [trendRecs]
  rw [if_pos (List.length_pos.mpr hnum), trend_filter_line]
  simp

/-- The C4 witness columns: one date column, one numeric column. -/
def dateColW : Column := { key := "d", type := "date", label := "D", stats := {} }

/-- Numeric column for the C4 witness. -/
def numColW : Column := { key := "n", type := "number", label := "N", stats := {} }

/-- Witness for C4 at one date and one numeric column. -/
theorem claim_C4_line_candidates_witness :
    ((recCandidates [] [dateColW, numColW]).filter (fun r => r.rtype == "line") =
      [mkLineRec dateColW numColW]) ∧ (mkLineRec dateColW numColW).score = 90 := by
  obtain ⟨h1, h2⟩ := claim_C4_line_candidates [] [dateColW, numColW] dateColW []
    (by decide) (by decide)
  constructor
  · rw [h1, show [dateColW, numColW].filter (fun c => c.type == "number") = [numColW]
      by decide]
    rfl
  · exact (h2 numColW).2.2

/-- The C4 counterexample columns: a date column and two numeric
columns with identical labels (the pipeline's `formatLabel` maps both
source keys `"a_b"` and `"a b"` to the label `"A b"`), so their line
recommendations collide on the deduplication title. -/
def dateColC : Column := { key := "d", type := "date", label := "D", stats := {} }

/-- First numeric column of the C4 counterexample. -/
def numColA : Column := { key := "a_b", type := "number", label := "A b", stats := {} }

/-- Second numeric column of the C4 counterexample, same label. -/
def numColB : Column := { key := "a b", type := "number", label := "A b", stats := {} }

/-- Column list of the C4 counterexample. -/
def dupLabelCols : List Column := [dateColC, numColA, numColB]

theorem corr_nil : calculateCorrelation [] [] = 0 := by
  simp [calculateCorrelation]

theorem pairCorrRecs_empty_data (nc : List Column) (a b : Column) :
    pairCorrRecs [] nc a b = [] := by
  simp only [pairCorrRecs, List.map_nil, corr_nil]
  rw [if_neg (by norm_num)]

theorem flatten_map_nil {α β : Type} (l : List α) :
    (l.map (fun _ => ([] : List β))).flatten = [] := by
  induction l with
  | nil => rfl
  | cons x xs ih => simp [ih]

theorem corrRecsAux_empty_data (nc : List Column) :
    ∀ cols, corrRecsAux [] nc cols = [] := by
  intro cols
  induction cols with
  | nil => rfl
  | cons a rest ih =>
    have hmap : rest.map (pairCorrRecs [] nc a) = rest.map (fun _ => []) :=
      List.map_congr_left (fun b _ => pairCorrRecs_empty_data nc a b)
    simp [corrRecsAux, hmap, ih, flatten_map_nil]

theorem distRecs_empty_stats :
    distRecs [numColA, numColB] = [] := by
  have h : ¬ stdDevPos ({} : Stats) := by
    simp [stdDevPos, Stats.stdDev]
  simp [distRecs, numColA, numColB, h]

/-- Counterexample to claim C4: on a date column and two numeric columns
whose labels coincide, the output of `getRecommendations` contains no
line recommendation for the second numeric column — the two line
candidates share a title and deduplication keeps only the first. -/
theorem claim_C4_counterexample :
    numColB ∈ dupLabelCols ∧ numColB.type = "number" ∧
    (dupLabelCols.filter (fun c => c.type == "date")).head? = some dateColC ∧
    ¬ ∃ r ∈ getRecommendations [] dupLabelCols,
        r.rtype = "line" ∧ r.yAxis = numColB.key := by
  have hcand : recCandidates [] dupLabelCols =
      [mkLineRec dateColC numColA, mkLineRec dateColC numColB] := by
    simp only [recCandidates]
    rw [show dupLabelCols.filter (fun c => c.type == "number") = [numColA, numColB]
        by decide,
      show dupLabelCols.filter (fun c => c.type == "category" || c.type == "text") = []
        by decide,
      show dupLabelCols.filter (fun c => c.type == "date") = [dateColC] by decide,
      distRecs_empty_stats, corrRecsAux_empty_data]
    simp [trendRecs, catRecs]
  have hsort : sortByPrec (fun a b => decide (b.score < a.score))
      [mkLineRec dateColC numColA, mkLineRec dateColC numColB] =
      [mkLineRec dateColC numColA, mkLineRec dateColC numColB] := by
    apply sortByPrec_of_forall_false
    intro a ha b hb
    rcases List.mem_cons.mp ha with rfl | ha' <;>
      rcases List.mem_cons.mp hb with rfl | hb' <;>
        simp_all [mkLineRec]
  have hded : dedupByTitle
      [mkLineRec dateColC numColA, mkLineRec dateColC numColB] [] =
      [mkLineRec dateColC numColA] := by
    simp [dedupByTitle, mkLineRec, numColA, numColB]
  have hout : getRecommendations [] dupLabelCols = [mkLineRec dateColC numColA] := by
    rw [getRecommendations, hcand, hsort, hded]
    rfl
  refine ⟨by decide, rfl, by decide, ?_⟩
  rw [hout]
  rintro ⟨r, hr, hline, hy⟩
  rcases List.mem_singleton.mp hr with rfl
  rw [show (mkLineRec dateColC numColA).yAxis = "a_b" from rfl] at hy
  rw [show numColB.key = "a b" from rfl] at hy
  exact (by decide : ("a_b" : String) ≠ "a b") hy

end Visuomind
